import Mathlib

/-!
Verification of the merge-decision and commit-message-synthesis core of
`github-actions-merger` (`main.go`) against its specification.

The Go source is shallowly embedded: strings are Lean `String`s (lists of
characters), Go `error` results become `Option String` / `Except String Unit`,
and the two regular expressions of the program are embedded as explicit
leftmost-match scanners whose semantics coincide with Go's RE2 on these
patterns (both patterns are concatenations of literals with a single
one-line / digit-run capture group, so leftmost matching with a maximal
group is exact; `.` in Go does not match a newline by default).
-/

namespace GAMerger

/-! ## Generic character-list helpers -/

/-- Boolean prefix test on character lists (Go substring-at-position test). -/
def isPre : List Char → List Char → Bool
  | [], _ => true
  | _ :: _, [] => false
  | a :: as, b :: bs => decide (a = b) && isPre as bs

/-- Index of the first (leftmost) occurrence of `pat` in a list, if any.
Used only to state the independent removal specification `stripAllSpec`. -/
def firstOcc (pat : List Char) : List Char → Option Nat
  | [] => none
  | c :: rest =>
    if isPre pat (c :: rest) then some 0
    else (firstOcc pat rest).map (fun n => n + 1)

/-- Embedding of Go `strings.ReplaceAll(s, old, "")` (for nonempty `old`):
scan left to right, removing each occurrence of `pat` and resuming the scan
right after it.  The scan is written with an explicit skip counter (the
number of still-to-be-consumed characters of a matched occurrence) so that
the recursion is structural on the scanned list. -/
def removeAllAux (pat : List Char) : Nat → List Char → List Char
  | _, [] => []
  | 0, c :: rest =>
    if pat ≠ [] ∧ isPre pat (c :: rest) = true then
      removeAllAux pat (pat.length - 1) rest
    else
      c :: removeAllAux pat 0 rest
  | skip + 1, _ :: rest => removeAllAux pat skip rest

/-- Go `strings.ReplaceAll(s, old, "")` for nonempty `old`. -/
def removeAll (pat l : List Char) : List Char :=
  removeAllAux pat 0 l

/-- Independent specification of removing every occurrence of `pat`:
repeatedly cut out the leftmost occurrence.  Written from the spec words
"removed at every occurrence", to be compared with `removeAll` above. -/
def stripAllSpec (pat : List Char) (l : List Char) : List Char :=
  if hp : pat = [] then l
  else
    match h : firstOcc pat l with
    | none => l
    | some i => l.take i ++ stripAllSpec pat (l.drop (i + pat.length))
termination_by l.length
decreasing_by
  simp only [List.length_drop]
  have hl : l ≠ [] := by
    intro he
    rw [he] at h
    simp [firstOcc] at h
  have h1 : 0 < pat.length := List.length_pos.mpr hp
  have h2 : 0 < l.length := List.length_pos.mpr hl
  omega

/-- Concatenation of a list of strings (used to state label rendering). -/
def joinStrs : List String → String
  | [] => ""
  | s :: rest => s ++ joinStrs rest

/-- Split a character list at newline characters (for stating which text
occupies a line of its own in a rendered body). -/
def splitNL : List Char → List (List Char)
  | [] => [[]]
  | c :: rest =>
    match splitNL rest with
    | [] => [[]]
    | h :: t => if c = '\n' then [] :: h :: t else (c :: h) :: t

/-- Go `unicode.IsSpace`: the Unicode White_Space property, as tested by
`strings.TrimSpace`. -/
def goIsSpace (c : Char) : Bool :=
  decide (c.val = 9 ∨ c.val = 10 ∨ c.val = 11 ∨ c.val = 12 ∨ c.val = 13 ∨
    c.val = 32 ∨ c.val = 0x85 ∨ c.val = 0xA0 ∨ c.val = 0x1680 ∨
    (0x2000 ≤ c.val ∧ c.val ≤ 0x200A) ∨ c.val = 0x2028 ∨ c.val = 0x2029 ∨
    c.val = 0x202F ∨ c.val = 0x205F ∨ c.val = 0x3000)

/-- Go `strings.TrimSpace` on a character list. -/
def goTrimSpace (l : List Char) : List Char :=
  ((l.dropWhile goIsSpace).reverse.dropWhile goIsSpace).reverse

/-! ## Authorization gate (`validateEnv`, main.go lines 70-84) -/

/-- The reserved trigger string (`mergeComment` constant in main.go). -/
def mergeComment : String := "/merge"

/-- The inputs of `validateEnv`: the fields of the Go `env` struct that the
gate reads, plus the pull-request number used by the success message. -/
structure GoEnv where
  Comment : String
  Mergers : List String
  Actor : String
  PRNumber : Int

/-- Embedding of `validateEnv` (main.go lines 70-84).  `some msg` is the
error returned by `fmt.Errorf`, `none` is the nil error. -/
def validateEnv (e : GoEnv) : Option String :=
  if e.Comment ≠ mergeComment then
    some ("comment must be " ++ mergeComment ++ ", got " ++ e.Comment)
  else if e.Mergers = [] then
    none
  else if e.Mergers.any (fun m => decide (e.Actor = m)) then
    none
  else
    some ("actor " ++ e.Actor ++ " is not in mergers list")

/-! ## Release-note extraction (`releaseNoteRegexp` and `splitReleaseNote`,
main.go lines 185 and 203-212)

`releaseNoteRegexp` is the Go regular expression
with pattern: three backticks, `release-note`, a newline, a non-greedy
one-or-more-character group, a newline, three backticks.  In Go's RE2 the
dot does not match a newline, so the group is a maximal nonempty run of
non-newline characters: a match starting at position `i` exists exactly
when the opening fence literal occurs at `i`, followed by a nonempty
newline-free line, followed by a newline and three backticks.
`tryMatch`/`findMatch` below embed exactly that leftmost search. -/

/-- The literal prefix of `releaseNoteRegexp`: three backticks,
`release-note`, and a newline. -/
def openFence : List Char := "```release-note\n".data

/-- The literal suffix of `releaseNoteRegexp`: a newline and three
backticks. -/
def closeFence : List Char := "\n```".data

/-- The full regex match (`ss[0]` in main.go) reassembled from the captured
group `g` (`ss[1]`). -/
def fullMatch (g : List Char) : List Char := openFence ++ g ++ closeFence

/-- Predicate for characters allowed inside the captured group (RE2 `.`). -/
def notNL (c : Char) : Bool := decide (c ≠ '\n')

/-- Attempt to match `releaseNoteRegexp` at the start of `l`, returning the
captured group. -/
def tryMatch (l : List Char) : Option (List Char) :=
  if isPre openFence l = true then
    let rest := l.drop openFence.length
    let line := rest.takeWhile notNL
    if line ≠ [] ∧ isPre closeFence (rest.drop line.length) = true then
      some line
    else none
  else none

/-- Leftmost match of `releaseNoteRegexp` in `l` (Go
`FindStringSubmatch`), returning the captured group. -/
def findMatch : List Char → Option (List Char)
  | [] => none
  | c :: rest =>
    match tryMatch (c :: rest) with
    | some g => some g
    | none => findMatch rest

/-- Embedding of `splitReleaseNote` (main.go lines 203-212): on a leftmost
regex match with non-whitespace group content, return the body with every
occurrence of the matched substring removed (`strings.ReplaceAll`) and the
trimmed group; otherwise return the body unchanged and the sentinel. -/
def splitReleaseNote (body : String) : String × String :=
  match findMatch body.data with
  | none => (body, "NONE")
  | some g =>
    let rn := goTrimSpace g
    if rn ≠ [] then (⟨removeAll (fullMatch g) body.data⟩, ⟨rn⟩)
    else (body, "NONE")

/-! ## Commit message synthesis (`newCommitBody`, `bodyTpl`,
`generateCommitBody`, `generateCommitSubject`, main.go lines 127-181) -/

/-- Pull-request metadata read by the synthesizer (go-github getters
`GetTitle`, `GetNumber`, `GetBody`, and the label names in slice order). -/
structure PullRequest where
  number : Int
  title : String
  body : String
  labels : List String

/-- The Go `commitBody` struct (main.go lines 163-167). -/
structure CommitBody where
  Labels : List String
  Message : String
  ReleaseNote : String

/-- Embedding of `newCommitBody` (main.go lines 150-161). -/
def newCommitBody (pr : PullRequest) : CommitBody :=
  { Labels := pr.labels
    Message := (splitReleaseNote pr.body).1
    ReleaseNote := (splitReleaseNote pr.body).2 }

/-- Embedding of executing `bodyTpl` (main.go lines 169-181).  The Go
template trim markers fix the emitted text nodes at parse time:
the newline before `if .Message` is trimmed; a newline precedes the
message; the newline before `end` is trimmed; one newline is always
emitted before `if .Labels`; the newline after `Labels:` is trimmed by
`range`; each label emits a newline, two spaces, a star, a space and the
label; the trailing newlines of the template (one from the raw string and
the two written before the release-note fence) are all trimmed by the
right-trim marker of the final `end`, so the fence follows the preceding
output directly. -/
def renderCommitBody (b : CommitBody) : String :=
  (if b.Message = "" then "" else "\n" ++ b.Message)
  ++ "\n"
  ++ (if b.Labels = [] then ""
      else "\nLabels:" ++ joinStrs (b.Labels.map (fun l => "\n  * " ++ l)))
  ++ "```release-note\n* " ++ b.ReleaseNote ++ "\n```"

/-- Embedding of `generateCommitBody` (main.go lines 131-138); template
execution of `bodyTpl` on `newCommitBody pr` cannot fail. -/
def generateCommitBody (pr : PullRequest) : String :=
  renderCommitBody (newCommitBody pr)

/-- Embedding of `generateCommitSubject` (main.go lines 127-129). -/
def generateCommitSubject (pr : PullRequest) : String :=
  pr.title ++ " (#" ++ toString pr.number ++ ")"

/-! ## Error classifier (`needApproveRegexp` and `errMsg`, main.go lines
184 and 188-199)

`needApproveRegexp` is the literal `At least `, a one-or-more-digit group,
and the literal ` approving review is required by reviewers with write
access`.  Since the character after the group is a space, the greedy digit
group is exactly the maximal digit run, and `FindStringSubmatch` returns
the leftmost such match. -/

/-- The literal before the digit group of `needApproveRegexp`. -/
def needOpenLit : List Char := "At least ".data

/-- The literal after the digit group of `needApproveRegexp`. -/
def needTailLit : List Char :=
  " approving review is required by reviewers with write access".data

/-- ASCII digit test (RE2 character class 0-9). -/
def isDigitChar (c : Char) : Bool := decide ('0' ≤ c ∧ c ≤ '9')

/-- Attempt to match `needApproveRegexp` at the start of `l`, returning the
captured digit run. -/
def tryNeed (l : List Char) : Option (List Char) :=
  if isPre needOpenLit l = true then
    let rest := l.drop needOpenLit.length
    let ds := rest.takeWhile isDigitChar
    if ds ≠ [] ∧ isPre needTailLit (rest.drop ds.length) = true then some ds
    else none
  else none

/-- Leftmost match of `needApproveRegexp` (Go `FindStringSubmatch`). -/
def findNeed : List Char → Option (List Char)
  | [] => none
  | c :: rest =>
    match tryNeed (c :: rest) with
    | some ds => some ds
    | none => findNeed rest

/-- Embedding of `errMsg` (main.go lines 190-199).  `none` is the nil
error; `some msg` an error whose `Error()` text is `msg`. -/
def errMsg (e : Option String) : String :=
  match e with
  | none => "Succeeded!"
  | some msg =>
    match findNeed msg.data with
    | some ds => "Need " ++ (⟨ds⟩ : String) ++ " approving review"
    | none => msg

/-- Spec-side statement that an error message matches the insufficient
approving-reviews pattern: it contains the opening literal, then a
nonempty digit run, then the tail literal. -/
def matchesNeedPattern (msg : String) : Prop :=
  ∃ pre ds post, msg.data = pre ++ needOpenLit ++ ds ++ needTailLit ++ post ∧
    ds ≠ [] ∧ ∀ c ∈ ds, isDigitChar c = true

/-! ## Merge orchestrator (`main`, main.go lines 36-68)

`main` is embedded as a function of the resolved environment and the
results of the two effectful collaborator calls it can make after
validation: `client.merge` (which internally performs the pull-request
fetch, so a fetch failure surfaces as a merge error) and `client.sendMsg`.
The returned list records the comment texts whose posting was attempted,
in order; the outcome records normal completion versus a Go `panic`. -/

/-- Process outcome of one invocation of `main`. -/
inductive MainOutcome where
  | success : MainOutcome
  | panicked : String → MainOutcome
deriving DecidableEq

/-- Embedding of `main` (main.go lines 36-68) after configuration loading:
validate, then merge (covering the fetch), then post the one status
comment the reached branch requires.  `mergeResult` is the error result of
`client.merge`, `sendResult` that of the single `client.sendMsg` call the
run attempts. -/
def mainRun (e : GoEnv) (mergeResult : Except String Unit)
    (sendResult : Except String Unit) : MainOutcome × List String :=
  match validateEnv e with
  | some verr =>
    (match sendResult with
     | Except.error serr => MainOutcome.panicked serr
     | Except.ok _ => MainOutcome.panicked verr,
     [errMsg (some verr)])
  | none =>
    match mergeResult with
    | Except.error merr =>
      (match sendResult with
       | Except.error serr => MainOutcome.panicked serr
       | Except.ok _ => MainOutcome.panicked merr,
       [errMsg (some merr)])
    | Except.ok _ =>
      (match sendResult with
       | Except.error serr => MainOutcome.panicked serr
       | Except.ok _ => MainOutcome.success,
       ["Merged PR #" ++ toString e.PRNumber ++ " successfully!"])

/-! ## Concrete inputs used by counterexamples and witnesses -/

/-- A body containing the same release-note fenced block twice. -/
def c2Body : String :=
  "```release-note\nnote\n```X```release-note\nnote\n```"

/-- A body whose release-note block content spans two lines. -/
def c4Body : String := "```release-note\nline1\nline2\n```"

/-- A body with two distinct release-note blocks back to back. -/
def c7Body : String := "```release-note\nA\n``````release-note\nB\n```"

/-- A pull request with no body text and one label. -/
def c5PR : PullRequest := { number := 1, title := "t", body := "", labels := ["bug"] }

/-- A pull request with no body text and two labels. -/
def c10PR : PullRequest :=
  { number := 1, title := "t", body := "", labels := ["bug", "P1"] }

/-- The opening fence tag, for asking whether some line starts with it. -/
def fenceTag : List Char := "```release-note".data

/-- The insufficient-reviews message from the specification's example. -/
def exNeedMsg : String :=
  "At least 2 approving review is required by reviewers with write access"

/-- An unrelated error message. -/
def cBoom : String := "boom"

/-- A body with no release-note block at all. -/
def cHello : String := "hello"

/-- A body with description text before its single-line block. -/
def cPrefixed : String := "x```release-note\nfix\n```"

/-- A body whose release-note block content is whitespace only. -/
def cBlank : String := "```release-note\n \n```"

/-! ## Helper lemmas -/

theorem strMk_eq_empty_iff (l : List Char) : (⟨l⟩ : String) = "" ↔ l = [] := by
  constructor
  · intro h
    simpa using congrArg String.data h
  · intro h
    subst h
    rfl

theorem anyEqActor (l : List String) (a : String) :
    l.any (fun m => decide (a = m)) = true ↔ a ∈ l := by
  simp only [List.any_eq_true, decide_eq_true_eq]
  constructor
  · rintro ⟨x, hx, he⟩
    exact he ▸ hx
  · intro h
    exact ⟨a, h, rfl⟩

theorem isPre_iff : ∀ (p l : List Char), isPre p l = true ↔ ∃ m, l = p ++ m := by
  intro p
  induction p with
  | nil =>
    intro l
    simp [isPre]
  | cons a as ih =>
    intro l
    cases l with
    | nil =>
      simp [isPre]
    | cons b bs =>
      constructor
      · intro h
        simp only [isPre, Bool.and_eq_true, decide_eq_true_eq] at h
        obtain ⟨hab, hrest⟩ := h
        obtain ⟨m, hm⟩ := (ih bs).mp hrest
        refine ⟨m, ?_⟩
        subst hm
        rw [← hab]
        rfl
      · rintro ⟨m, hm⟩
        injection hm with h1 h2
        simp only [isPre, Bool.and_eq_true, decide_eq_true_eq]
        exact ⟨h1.symm, (ih bs).mpr ⟨m, h2⟩⟩

theorem isPre_append (p m : List Char) : isPre p (p ++ m) = true :=
  (isPre_iff p (p ++ m)).mpr ⟨m, rfl⟩

theorem removeAllAux_skip_drop (pat : List Char) :
    ∀ (k : Nat) (l : List Char),
      removeAllAux pat k l = removeAllAux pat 0 (l.drop k) := by
  intro k
  induction k with
  | zero =>
    intro l
    rw [List.drop_zero]
  | succ k ih =>
    intro l
    cases l with
    | nil => simp [removeAllAux]
    | cons c rest =>
      rw [List.drop_succ_cons]
      show removeAllAux pat k rest = _
      exact ih rest

theorem removeAll_nil (pat : List Char) : removeAll pat [] = [] := rfl

theorem removeAll_cons_pos {pat : List Char} {c : Char} {rest : List Char}
    (h1 : pat ≠ []) (h2 : isPre pat (c :: rest) = true) :
    removeAll pat (c :: rest) = removeAll pat ((c :: rest).drop pat.length) := by
  have hplen : 0 < pat.length := List.length_pos.mpr h1
  show removeAllAux pat 0 (c :: rest) = _
  simp only [removeAllAux]
  rw [if_pos ⟨h1, h2⟩, removeAllAux_skip_drop]
  have hd : (c :: rest).drop pat.length = rest.drop (pat.length - 1) := by
    cases hp : pat.length with
    | zero => omega
    | succ k =>
      rw [List.drop_succ_cons]
      congr 1
  rw [hd]
  rfl

theorem removeAll_cons_neg {pat : List Char} {c : Char} {rest : List Char}
    (h : ¬(pat ≠ [] ∧ isPre pat (c :: rest) = true)) :
    removeAll pat (c :: rest) = c :: removeAll pat rest := by
  show removeAllAux pat 0 (c :: rest) = _
  simp only [removeAllAux]
  rw [if_neg h]
  rfl

theorem firstOcc_cons_pos {pat : List Char} {c : Char} {rest : List Char}
    (h : isPre pat (c :: rest) = true) :
    firstOcc pat (c :: rest) = some 0 := by
  simp [firstOcc, h]

theorem firstOcc_cons_neg {pat : List Char} {c : Char} {rest : List Char}
    (h : ¬ isPre pat (c :: rest) = true) :
    firstOcc pat (c :: rest) = (firstOcc pat rest).map (fun n => n + 1) := by
  simp [firstOcc, h]

theorem stripAllSpec_of_none {pat l : List Char} (h : firstOcc pat l = none) :
    stripAllSpec pat l = l := by
  rw [stripAllSpec]
  split
  · rfl
  · split
    · rfl
    · rename_i i heq
      rw [h] at heq
      cases heq

theorem stripAllSpec_of_some {pat l : List Char} {i : Nat} (hp : pat ≠ [])
    (h : firstOcc pat l = some i) :
    stripAllSpec pat l = l.take i ++ stripAllSpec pat (l.drop (i + pat.length)) := by
  rw [stripAllSpec]
  rw [dif_neg hp]
  split
  · rename_i heq
    rw [h] at heq
    cases heq
  · rename_i j heq
    rw [h] at heq
    injection heq with hij
    rw [hij]

theorem stripAllSpec_cons_not_pre {pat : List Char} {c : Char} {rest : List Char}
    (hp : pat ≠ []) (hpre : ¬ isPre pat (c :: rest) = true) :
    stripAllSpec pat (c :: rest) = c :: stripAllSpec pat rest := by
  cases hf : firstOcc pat rest with
  | none =>
    have h1 : firstOcc pat (c :: rest) = none := by
      rw [firstOcc_cons_neg hpre, hf]
      rfl
    rw [stripAllSpec_of_none h1, stripAllSpec_of_none hf]
  | some j =>
    have h1 : firstOcc pat (c :: rest) = some (j + 1) := by
      rw [firstOcc_cons_neg hpre, hf]
      rfl
    rw [stripAllSpec_of_some hp h1, stripAllSpec_of_some hp hf]
    rw [List.take_succ_cons, List.cons_append]
    have harith : j + 1 + pat.length = (j + pat.length) + 1 := by omega
    rw [harith, List.drop_succ_cons]

theorem removeAll_eq_strip_aux (pat : List Char) (hp : pat ≠ []) :
    ∀ (n : Nat) (l : List Char), l.length ≤ n →
      removeAll pat l = stripAllSpec pat l := by
  intro n
  induction n with
  | zero =>
    intro l hl
    have h0 : l = [] := List.eq_nil_of_length_eq_zero (Nat.le_zero.mp hl)
    subst h0
    rw [removeAll_nil, stripAllSpec_of_none]
    rfl
  | succ n ih =>
    intro l hl
    cases l with
    | nil =>
      rw [removeAll_nil, stripAllSpec_of_none]
      rfl
    | cons c rest =>
      by_cases hpre : isPre pat (c :: rest) = true
      · rw [removeAll_cons_pos hp hpre,
          stripAllSpec_of_some hp (firstOcc_cons_pos hpre)]
        simp only [List.take_zero, List.nil_append, Nat.zero_add]
        refine ih _ ?_
        have hplen : 0 < pat.length := List.length_pos.mpr hp
        simp only [List.length_drop, List.length_cons]
        simp only [List.length_cons] at hl
        omega
      · rw [removeAll_cons_neg (fun hc => hpre hc.2),
          stripAllSpec_cons_not_pre hp hpre]
        have : removeAll pat rest = stripAllSpec pat rest := by
          refine ih rest ?_
          simp only [List.length_cons] at hl
          omega
        rw [this]

/-- `removeAll` (Go `strings.ReplaceAll` with empty replacement) agrees
with the independent leftmost-cutting specification `stripAllSpec`. -/
theorem removeAll_eq_stripAllSpec (pat l : List Char) (hp : pat ≠ []) :
    removeAll pat l = stripAllSpec pat l :=
  removeAll_eq_strip_aux pat hp l.length l le_rfl

theorem fullMatch_ne_nil (g : List Char) : fullMatch g ≠ [] := by
  intro h
  have hl := congrArg List.length h
  simp only [fullMatch, List.length_append, List.length_nil] at hl
  have h16 : openFence.length = 16 := by decide
  omega

theorem tryMatch_some_shape {l g : List Char} (h : tryMatch l = some g) :
    ∃ post, l = openFence ++ g ++ closeFence ++ post ∧ g ≠ [] ∧
      (∀ c ∈ g, notNL c = true) := by
  simp only [tryMatch] at h
  split at h
  case isTrue h1 =>
    split at h
    case isTrue h2 =>
      injection h with hg
      obtain ⟨m, hm⟩ := (isPre_iff _ _).mp h1
      have hrest : l.drop openFence.length = m := by
        rw [hm]
        exact List.drop_left _ _
      rw [hrest] at hg h2
      obtain ⟨h2a, h2b⟩ := h2
      obtain ⟨post, hpost⟩ := (isPre_iff _ _).mp h2b
      set tw := m.takeWhile notNL with htw
      set dw := m.dropWhile notNL with hdw
      have hsplit : m = tw ++ dw := by
        rw [htw, hdw]
        exact (List.takeWhile_append_dropWhile _ _).symm
      have hdrop : m.drop tw.length = dw := by
        rw [hsplit]
        exact List.drop_left _ _
      rw [hdrop] at hpost
      refine ⟨post, ?_, ?_, ?_⟩
      · rw [hm, hsplit, hg, hpost]
        simp [List.append_assoc]
      · rw [← hg]
        exact h2a
      · intro c hc
        rw [← hg] at hc
        exact List.mem_takeWhile_imp hc
    case isFalse h2 => cases h
  case isFalse h1 => cases h

theorem tryMatch_isPre_full {l g : List Char} (h : tryMatch l = some g) :
    isPre (fullMatch g) l = true := by
  obtain ⟨post, hl, -, -⟩ := tryMatch_some_shape h
  rw [hl, fullMatch]
  have : openFence ++ g ++ closeFence ++ post = (openFence ++ g ++ closeFence) ++ post := by
    simp [List.append_assoc]
  rw [this]
  exact isPre_append _ _

theorem findMatch_occurrence {l g : List Char} (h : findMatch l = some g) :
    ∃ i, isPre (fullMatch g) (l.drop i) = true := by
  induction l with
  | nil => simp [findMatch] at h
  | cons c rest ih =>
    cases htm : tryMatch (c :: rest) with
    | some g2 =>
      have heq : findMatch (c :: rest) = some g2 := by
        simp only [findMatch]
        rw [htm]
      rw [heq] at h
      injection h with hg
      subst hg
      exact ⟨0, tryMatch_isPre_full htm⟩
    | none =>
      have heq : findMatch (c :: rest) = findMatch rest := by
        simp only [findMatch]
        rw [htm]
      rw [heq] at h
      obtain ⟨i, hi⟩ := ih h
      exact ⟨i + 1, by rw [List.drop_succ_cons]; exact hi⟩

theorem removeAll_length_le_aux : ∀ (n : Nat) (pat l : List Char), l.length ≤ n →
    (removeAll pat l).length ≤ l.length := by
  intro n
  induction n with
  | zero =>
    intro pat l hl
    have h0 : l = [] := List.eq_nil_of_length_eq_zero (Nat.le_zero.mp hl)
    subst h0
    rw [removeAll_nil]
  | succ n ih =>
    intro pat l hl
    cases l with
    | nil => rw [removeAll_nil]
    | cons c rest =>
      by_cases h : pat ≠ [] ∧ isPre pat (c :: rest) = true
      · rw [removeAll_cons_pos h.1 h.2]
        have h1 := ih pat ((c :: rest).drop pat.length) (by
          have hplen : 0 < pat.length := List.length_pos.mpr h.1
          simp only [List.length_drop, List.length_cons]
          simp only [List.length_cons] at hl
          omega)
        simp only [List.length_drop, List.length_cons] at h1 ⊢
        omega
      · rw [removeAll_cons_neg h]
        simp only [List.length_cons]
        have h1 := ih pat rest (by
          simp only [List.length_cons] at hl
          omega)
        omega

theorem removeAll_length_le (pat l : List Char) :
    (removeAll pat l).length ≤ l.length :=
  removeAll_length_le_aux l.length pat l le_rfl

theorem removeAll_length_lt_aux (pat : List Char) (hp : pat ≠ []) :
    ∀ (n : Nat) (l : List Char) (i : Nat), l.length ≤ n →
      isPre pat (l.drop i) = true → (removeAll pat l).length < l.length := by
  intro n
  induction n with
  | zero =>
    intro l i hl hocc
    have h0 : l = [] := List.eq_nil_of_length_eq_zero (Nat.le_zero.mp hl)
    subst h0
    rw [List.drop_nil] at hocc
    cases pat with
    | nil => exact absurd rfl hp
    | cons pc pcs => simp [isPre] at hocc
  | succ n ih =>
    intro l i hl hocc
    cases l with
    | nil =>
      rw [List.drop_nil] at hocc
      cases pat with
      | nil => exact absurd rfl hp
      | cons pc pcs => simp [isPre] at hocc
    | cons c rest =>
      by_cases hpre : isPre pat (c :: rest) = true
      · rw [removeAll_cons_pos hp hpre]
        have h1 := removeAll_length_le pat ((c :: rest).drop pat.length)
        have hplen : 0 < pat.length := List.length_pos.mpr hp
        simp only [List.length_drop, List.length_cons] at h1 ⊢
        omega
      · cases i with
        | zero =>
          rw [List.drop_zero] at hocc
          exact absurd hocc hpre
        | succ j =>
          rw [List.drop_succ_cons] at hocc
          rw [removeAll_cons_neg (fun hc => hpre hc.2)]
          simp only [List.length_cons]
          have h1 := ih rest j (by
            simp only [List.length_cons] at hl
            omega) hocc
          omega

theorem removeAll_length_lt (pat : List Char) (hp : pat ≠ []) (l : List Char)
    (i : Nat) (hocc : isPre pat (l.drop i) = true) :
    (removeAll pat l).length < l.length :=
  removeAll_length_lt_aux pat hp l.length l i le_rfl hocc

/-! ## C2: stripping of the matched block from the description -/

/-- C2 counterexample: on a body holding the same fenced block twice, the
later occurrence does NOT remain in the description — `splitReleaseNote`
removes both, so the description is bare `X`, not `X` followed by the
block. -/
theorem splitReleaseNote_first_only_false :
    (splitReleaseNote c2Body).1 = "X" ∧
      (splitReleaseNote c2Body).1 ≠ "X```release-note\nnote\n```" := by
  decide

/-- C2 amended: when a release-note block with nonempty trimmed content is
found, the release note is the trimmed content and the description is the
body with EVERY left-to-right occurrence of the exact matched substring
cut out (Go `strings.ReplaceAll`), not just the first one. -/
theorem splitReleaseNote_strips_every_occurrence (body : String)
    (g : List Char) (hm : findMatch body.data = some g)
    (ht : goTrimSpace g ≠ []) :
    (splitReleaseNote body).1 =
      (⟨stripAllSpec (fullMatch g) body.data⟩ : String) ∧
    (splitReleaseNote body).2 = (⟨goTrimSpace g⟩ : String) := by
  constructor
  · have h1 : (splitReleaseNote body).1 =
        (⟨removeAll (fullMatch g) body.data⟩ : String) := by
      simp [splitReleaseNote, hm, ht]
    rw [h1, removeAll_eq_stripAllSpec _ _ (fullMatch_ne_nil g)]
  · simp [splitReleaseNote, hm, ht]

/-- Witness for C2 (amended): the two-block body, at the concrete match. -/
theorem splitReleaseNote_strips_every_occurrence_witness :
    (splitReleaseNote c2Body).1 =
      (⟨stripAllSpec (fullMatch ("note").data) c2Body.data⟩ : String) ∧
    (splitReleaseNote c2Body).2 = (⟨goTrimSpace ("note").data⟩ : String) :=
  splitReleaseNote_strips_every_occurrence c2Body ("note").data
    (by decide) (by decide)

/-! ## C7: idempotence of extraction -/

/-- C7 counterexample: on a body with two distinct release-note blocks,
the description produced by the first extraction still contains a block,
and the second pass extracts `B` instead of `NONE`. -/
theorem splitReleaseNote_not_idempotent :
    (splitReleaseNote ((splitReleaseNote c7Body).1)).2 = "B" ∧
      ("B" : String) ≠ "NONE" := by
  decide

/-- C7 amended: re-extraction yields the sentinel whenever the first pass
left the description equal to the whole body (which covers every body in
which no block with nonempty trimmed content is found); when a block was
stripped, a second block may survive into the description, as the
counterexample shows. -/
theorem splitReleaseNote_second_pass_none (body : String)
    (h : (splitReleaseNote body).1 = body) :
    splitReleaseNote ((splitReleaseNote body).1) = (body, "NONE") := by
  cases hm : findMatch body.data with
  | none =>
    have h1 : splitReleaseNote body = (body, "NONE") := by
      simp [splitReleaseNote, hm]
    rw [h, h1]
  | some g =>
    by_cases ht : goTrimSpace g = []
    · have h1 : splitReleaseNote body = (body, "NONE") := by
        simp [splitReleaseNote, hm, ht]
      rw [h, h1]
    · exfalso
      have h1 : (splitReleaseNote body).1 =
          (⟨removeAll (fullMatch g) body.data⟩ : String) := by
        simp [splitReleaseNote, hm, ht]
      rw [h1] at h
      have hdata : removeAll (fullMatch g) body.data = body.data :=
        congrArg String.data h
      obtain ⟨i, hi⟩ := findMatch_occurrence hm
      have hlt := removeAll_length_lt (fullMatch g) (fullMatch_ne_nil g)
        body.data i hi
      rw [hdata] at hlt
      omega

/-- Witness for C7 (amended): a body with no block at all. -/
theorem splitReleaseNote_second_pass_none_witness :
    splitReleaseNote ((splitReleaseNote cHello).1) = (cHello, "NONE") :=
  splitReleaseNote_second_pass_none cHello (by decide)

theorem takeWhile_append_stop {p : Char → Bool} :
    ∀ {content : List Char}, (∀ c ∈ content, p c = true) →
      ∀ {x : Char}, p x = false →
        ∀ (tail : List Char), (content ++ x :: tail).takeWhile p = content := by
  intro content
  induction content with
  | nil =>
    intro _ x hx tail
    simp [List.takeWhile_cons, hx]
  | cons c cs ih =>
    intro h x hx tail
    have hc : p c = true := h c (by simp)
    rw [List.cons_append, List.takeWhile_cons, hc]
    simp only [if_true]
    rw [ih (fun d hd => h d (by simp [hd])) hx tail]

theorem takeWhile_notNL_append {content : List Char}
    (h : ∀ c ∈ content, c ≠ '\n') (tail : List Char) :
    (content ++ '\n' :: tail).takeWhile notNL = content := by
  refine takeWhile_append_stop ?_ ?_ tail
  · intro c hc
    simp only [notNL, decide_eq_true_eq]
    exact h c hc
  · simp [notNL]

theorem openFence_append_ne_nil (m : List Char) : openFence ++ m ≠ [] := by
  intro hx
  have h2 := (List.append_eq_nil).mp hx
  exact absurd h2.1 (by decide)

theorem tryMatch_at_block (content post : List Char) (hc : content ≠ [])
    (hnl : ∀ c ∈ content, c ≠ '\n') :
    tryMatch (openFence ++ (content ++ (closeFence ++ post))) = some content := by
  have hdropA : (openFence ++ (content ++ (closeFence ++ post))).drop openFence.length
      = content ++ (closeFence ++ post) := List.drop_left _ _
  have hcf : closeFence ++ post = '\n' :: (("```").data ++ post) := by
    have h3 : closeFence = '\n' :: ("```").data := by decide
    rw [h3]
    rfl
  have htake : (content ++ (closeFence ++ post)).takeWhile notNL = content := by
    rw [hcf]
    exact takeWhile_notNL_append hnl _
  have hdropB : (content ++ (closeFence ++ post)).drop content.length =
      closeFence ++ post := List.drop_left _ _
  have hA : isPre openFence (openFence ++ (content ++ (closeFence ++ post))) = true :=
    isPre_append _ _
  have hB : isPre closeFence (closeFence ++ post) = true := isPre_append _ _
  simp only [tryMatch, hdropA, htake, hdropB, hA, hB, ne_eq, hc,
    not_false_eq_true, and_self, if_true]

theorem findMatch_cons_of_tryMatch {l : List Char} {g : List Char}
    (hne : l ≠ []) (h : tryMatch l = some g) : findMatch l = some g := by
  cases l with
  | nil => exact absurd rfl hne
  | cons c rest =>
    simp only [findMatch]
    rw [h]

theorem findMatch_some_of_try : ∀ (l : List Char) (i : Nat) (g : List Char),
    tryMatch (l.drop i) = some g → ∃ g2, findMatch l = some g2 := by
  intro l
  induction l with
  | nil =>
    intro i g h
    rw [List.drop_nil] at h
    have h0 : tryMatch ([] : List Char) = none := rfl
    rw [h0] at h
    cases h
  | cons c rest ih =>
    intro i g h
    cases htm : tryMatch (c :: rest) with
    | some g2 =>
      refine ⟨g2, ?_⟩
      simp only [findMatch]
      rw [htm]
    | none =>
      cases i with
      | zero =>
        rw [List.drop_zero] at h
        rw [h] at htm
        cases htm
      | succ j =>
        rw [List.drop_succ_cons] at h
        obtain ⟨g2, hg2⟩ := ih j g h
        refine ⟨g2, ?_⟩
        simp only [findMatch]
        rw [htm]
        exact hg2

theorem findMatch_single_line {g : List Char} : ∀ {l : List Char},
    findMatch l = some g → g ≠ [] ∧ (∀ c ∈ g, c ≠ '\n') := by
  intro l
  induction l with
  | nil => intro h; simp [findMatch] at h
  | cons c rest ih =>
    intro h
    cases htm : tryMatch (c :: rest) with
    | some g2 =>
      have heq : findMatch (c :: rest) = some g2 := by
        simp only [findMatch]
        rw [htm]
      rw [heq] at h
      injection h with hg
      subst hg
      obtain ⟨-, -, hne, hnl⟩ := tryMatch_some_shape htm
      refine ⟨hne, fun d hd => ?_⟩
      have := hnl d hd
      simpa [notNL] using this
    | none =>
      have heq : findMatch (c :: rest) = findMatch rest := by
        simp only [findMatch]
        rw [htm]
      rw [heq] at h
      exact ih h

/-! ## C4: which fenced blocks are found -/

/-- C4 counterexample: a release-note block whose nonempty content spans
two lines is not matched at all; the extraction returns the sentinel and
leaves the body unchanged. -/
theorem splitReleaseNote_multiline_not_found :
    (splitReleaseNote c4Body).2 = "NONE" ∧
      (splitReleaseNote c4Body).1 = c4Body := by
  decide

/-- C4 amended: a body containing anywhere a fenced block whose content
is a SINGLE nonempty newline-free line always has a release-note block
found in it (the leftmost match), the captured content of any match is
itself a single nonempty newline-free line (the regex group cannot cross
a newline, so content spanning two or more lines is never captured), and
whenever the captured content's trimmed text is non-empty that trimmed
text is returned as the release note; in particular, when the block opens
the body, the release note is that block's own trimmed content. -/
theorem splitReleaseNote_single_line_block :
    (∀ (pre content post : List Char), content ≠ [] →
      (∀ c ∈ content, c ≠ '\n') →
      ∃ g, findMatch (pre ++ (openFence ++ (content ++ (closeFence ++ post)))) =
          some g ∧
        g ≠ [] ∧ (∀ c ∈ g, c ≠ '\n') ∧
        (goTrimSpace g ≠ [] →
          (splitReleaseNote
              (⟨pre ++ (openFence ++ (content ++ (closeFence ++ post)))⟩ :
                String)).2 = (⟨goTrimSpace g⟩ : String))) ∧
    (∀ (content post : List Char), content ≠ [] →
      (∀ c ∈ content, c ≠ '\n') → goTrimSpace content ≠ [] →
      (splitReleaseNote (⟨openFence ++ (content ++ (closeFence ++ post))⟩ :
          String)).2 = (⟨goTrimSpace content⟩ : String)) ∧
    (∀ (body : String) (g : List Char), findMatch body.data = some g →
      g ≠ [] ∧ (∀ c ∈ g, c ≠ '\n')) := by
  refine ⟨?_, ?_, ?_⟩
  · intro pre content post hc hnl
    have hdrop : (pre ++ (openFence ++ (content ++ (closeFence ++ post)))).drop
        pre.length = openFence ++ (content ++ (closeFence ++ post)) :=
      List.drop_left _ _
    have htry : tryMatch
        ((pre ++ (openFence ++ (content ++ (closeFence ++ post)))).drop
          pre.length) = some content := by
      rw [hdrop]
      exact tryMatch_at_block content post hc hnl
    obtain ⟨g, hg⟩ := findMatch_some_of_try _ pre.length content htry
    obtain ⟨hne, hnl2⟩ := findMatch_single_line hg
    refine ⟨g, hg, hne, hnl2, ?_⟩
    intro ht
    have hfm : findMatch
        ((⟨pre ++ (openFence ++ (content ++ (closeFence ++ post)))⟩ :
          String)).data = some g := hg
    simp [splitReleaseNote, hfm, ht]
  · intro content post hc hnl ht
    have hfm : findMatch
        ((⟨openFence ++ (content ++ (closeFence ++ post))⟩ : String)).data =
        some content := by
      show findMatch (openFence ++ (content ++ (closeFence ++ post))) =
        some content
      exact findMatch_cons_of_tryMatch (openFence_append_ne_nil _)
        (tryMatch_at_block content post hc hnl)
    simp [splitReleaseNote, hfm, ht]
  · intro body g h
    exact findMatch_single_line h

/-- Witness for C4 (amended): a one-line block with content `fixed`
opening the body, and the prefixed body `x` + block with content `fix`
whose leftmost capture is a nonempty newline-free line. -/
theorem splitReleaseNote_single_line_block_witness :
    ((splitReleaseNote ⟨openFence ++ (("fixed").data ++ (closeFence ++ []))⟩).2 =
      (⟨goTrimSpace ("fixed").data⟩ : String)) ∧
    (("fix").data ≠ [] ∧ (∀ c ∈ ("fix").data, c ≠ '\n')) :=
  ⟨splitReleaseNote_single_line_block.2.1 ("fixed").data []
    (by decide) (by decide) (by decide),
   splitReleaseNote_single_line_block.2.2 cPrefixed ("fix").data (by decide)⟩

theorem strExt {a b : String} (h : a.data = b.data) : a = b := by
  cases a
  cases b
  simp only at h
  rw [h]

theorem strData_append (a b : String) : (a ++ b).data = a.data ++ b.data := rfl

theorem strData_empty : ("" : String).data = [] := rfl

theorem joinStrs_append (a b : List String) :
    joinStrs (a ++ b) = joinStrs a ++ joinStrs b := by
  induction a with
  | nil =>
    apply strExt
    simp [joinStrs, strData_append, strData_empty]
  | cons s rest ih =>
    show s ++ joinStrs (rest ++ b) = s ++ joinStrs rest ++ joinStrs b
    rw [ih]
    apply strExt
    simp [strData_append, List.append_assoc]

/-! ## C5: shape of the synthesized commit body -/

/-- C5 counterexample: with a nonempty label list the opening release-note
fence does NOT start at the beginning of a line — it is glued directly to
the last label bullet (the Go template's trim marker on the closing `end`
eats the newlines written before the fence). -/
theorem generateCommitBody_fence_midline :
    generateCommitBody c5PR = "\n\nLabels:\n  * bug```release-note\n* NONE\n```" ∧
      (splitNL (generateCommitBody c5PR).data).all
        (fun line => !(isPre fenceTag line)) = true := by
  decide

/-- C5 amended: the commit body is the optional description paragraph,
then the optional Labels section, then always the release-note fence with
the single bullet line; the opening fence is preceded by a newline (and so
starts a line) exactly when the label list is empty, while with labels
present it directly follows the last label bullet on the same line. -/
theorem generateCommitBody_structure (pr : PullRequest) :
    ((splitReleaseNote pr.body).1 = "" → pr.labels = [] →
      generateCommitBody pr =
        "\n" ++ "```release-note\n* " ++ (splitReleaseNote pr.body).2 ++ "\n```") ∧
    ((splitReleaseNote pr.body).1 ≠ "" → pr.labels = [] →
      generateCommitBody pr =
        "\n" ++ (splitReleaseNote pr.body).1 ++ "\n" ++ "```release-note\n* " ++
          (splitReleaseNote pr.body).2 ++ "\n```") ∧
    (∀ ls hd, pr.labels = ls ++ [hd] →
      generateCommitBody pr =
        (if (splitReleaseNote pr.body).1 = "" then ""
         else "\n" ++ (splitReleaseNote pr.body).1) ++ "\n" ++ "\nLabels:" ++
        joinStrs (ls.map (fun l => "\n  * " ++ l)) ++ "\n  * " ++ hd ++
        "```release-note\n* " ++ (splitReleaseNote pr.body).2 ++ "\n```") := by
  refine ⟨?_, ?_, ?_⟩
  · intro hm hls
    simp only [generateCommitBody, newCommitBody, renderCommitBody]
    rw [if_pos hm, if_pos hls]
    apply strExt
    simp [strData_append, strData_empty, List.append_assoc]
  · intro hm hls
    simp only [generateCommitBody, newCommitBody, renderCommitBody]
    rw [if_neg hm, if_pos hls]
    apply strExt
    simp [strData_append, strData_empty, List.append_assoc]
  · intro ls hd hls
    simp only [generateCommitBody, newCommitBody, renderCommitBody]
    have hne : ls ++ [hd] ≠ [] := by simp
    rw [hls, if_neg hne, List.map_append, joinStrs_append]
    by_cases hm : (splitReleaseNote pr.body).1 = ""
    · rw [if_pos hm]
      apply strExt
      simp [strData_append, strData_empty, joinStrs, List.append_assoc]
    · rw [if_neg hm]
      apply strExt
      simp [strData_append, strData_empty, joinStrs, List.append_assoc]

/-- Witness for C5 (amended): no-description no-labels body, and the
one-label pull request where the fence is glued to the label line. -/
theorem generateCommitBody_structure_witness :
    generateCommitBody { number := 2, title := "t", body := "", labels := [] } =
      "\n" ++ "```release-note\n* " ++
        (splitReleaseNote ("" : String)).2 ++ "\n```" ∧
    generateCommitBody c5PR =
      (if (splitReleaseNote c5PR.body).1 = "" then ""
       else "\n" ++ (splitReleaseNote c5PR.body).1) ++ "\n" ++ "\nLabels:" ++
      joinStrs (([] : List String).map (fun l => "\n  * " ++ l)) ++ "\n  * " ++
      ("bug" : String) ++ "```release-note\n* " ++
      (splitReleaseNote c5PR.body).2 ++ "\n```" :=
  ⟨(generateCommitBody_structure _).1 rfl rfl,
   (generateCommitBody_structure c5PR).2.2 [] "bug" rfl⟩

/-! ## C10: label rendering and order -/

/-- C10 counterexample: with labels `bug, P1`, the non-final label `bug`
occupies a line of its own, but the final label `P1` does not — its line
continues with the opening release-note fence. -/
theorem generateCommitBody_last_label_line :
    generateCommitBody c10PR =
      "\n\nLabels:\n  * bug\n  * P1```release-note\n* NONE\n```" ∧
    (splitNL (generateCommitBody c10PR).data).contains ("  * bug").data = true ∧
    (splitNL (generateCommitBody c10PR).data).contains ("  * P1").data = false := by
  decide

/-- C10 amended: the labels appear in exactly the pull request's list
order, each rendered as a newline, two spaces, a star, a space and the
label name; every label except the last therefore ends its own line, while
the last label is followed on the same line by the opening release-note
fence. -/
theorem generateCommitBody_labels_in_order (pr : PullRequest)
    (ls : List String) (hd : String) (h : pr.labels = ls ++ [hd]) :
    generateCommitBody pr =
      (if (splitReleaseNote pr.body).1 = "" then ""
       else "\n" ++ (splitReleaseNote pr.body).1) ++ "\n" ++ "\nLabels:" ++
      joinStrs (ls.map (fun l => "\n  * " ++ l)) ++ ("\n  * " ++ hd) ++
      "```release-note\n* " ++ (splitReleaseNote pr.body).2 ++ "\n```" := by
  simp only [generateCommitBody, newCommitBody, renderCommitBody]
  have hne : ls ++ [hd] ≠ [] := by simp
  rw [h, if_neg hne, List.map_append, joinStrs_append]
  by_cases hm : (splitReleaseNote pr.body).1 = ""
  · rw [if_pos hm]
    apply strExt
    simp [strData_append, strData_empty, joinStrs, List.append_assoc]
  · rw [if_neg hm]
    apply strExt
    simp [strData_append, strData_empty, joinStrs, List.append_assoc]

/-- Witness for C10 (amended): the two-label pull request. -/
theorem generateCommitBody_labels_in_order_witness :
    generateCommitBody c10PR =
      (if (splitReleaseNote c10PR.body).1 = "" then ""
       else "\n" ++ (splitReleaseNote c10PR.body).1) ++ "\n" ++ "\nLabels:" ++
      joinStrs ((["bug"] : List String).map (fun l => "\n  * " ++ l)) ++
      ("\n  * " ++ ("P1" : String)) ++ "```release-note\n* " ++
      (splitReleaseNote c10PR.body).2 ++ "\n```" :=
  generateCommitBody_labels_in_order c10PR ["bug"] "P1" rfl

/-! ## C1: authorization gate -/

/-- C1: `validateEnv` fails with the bad-trigger error whenever the
triggering comment is not exactly the trigger string, regardless of actor
and mergers; with the correct trigger it succeeds when the mergers list is
empty, and otherwise succeeds iff the actor is exactly equal to some list
element, failing with the actor-not-authorized error otherwise. -/
theorem validateEnv_spec (e : GoEnv) :
    (e.Comment ≠ mergeComment →
      validateEnv e =
        some ("comment must be " ++ mergeComment ++ ", got " ++ e.Comment)) ∧
    (e.Comment = mergeComment → e.Mergers = [] → validateEnv e = none) ∧
    (e.Comment = mergeComment → e.Mergers ≠ [] →
      (e.Actor ∈ e.Mergers → validateEnv e = none) ∧
      (e.Actor ∉ e.Mergers →
        validateEnv e =
          some ("actor " ++ e.Actor ++ " is not in mergers list"))) := by
  refine ⟨?_, ?_, ?_⟩
  · intro h
    simp [validateEnv, h]
  · intro h1 h2
    simp [validateEnv, h1, h2]
  · intro h1 h2
    constructor
    · intro hm
      have hb : e.Mergers.any (fun m => decide (e.Actor = m)) = true :=
        (anyEqActor _ _).mpr hm
      simp [validateEnv, h1, h2, hb]
    · intro hm
      have hb : e.Mergers.any (fun m => decide (e.Actor = m)) = false := by
        rw [Bool.eq_false_iff]
        intro hc
        exact hm ((anyEqActor _ _).mp hc)
      simp [validateEnv, h1, h2, hb]

/-- Witness for C1: all four branches of the gate at concrete inputs. -/
theorem validateEnv_spec_witness :
    validateEnv { Comment := "/x", Mergers := [], Actor := "a", PRNumber := 1 } =
      some "comment must be /merge, got /x" ∧
    validateEnv { Comment := "/merge", Mergers := [], Actor := "a", PRNumber := 1 } =
      none ∧
    validateEnv { Comment := "/merge", Mergers := ["bob"], Actor := "bob", PRNumber := 1 } =
      none ∧
    validateEnv { Comment := "/merge", Mergers := ["bob"], Actor := "eve", PRNumber := 1 } =
      some "actor eve is not in mergers list" :=
  ⟨(validateEnv_spec _).1 (by decide),
   (validateEnv_spec _).2.1 rfl rfl,
   ((validateEnv_spec _).2.2 rfl (by decide)).1 (by decide),
   ((validateEnv_spec _).2.2 rfl (by decide)).2 (by decide)⟩

theorem needOpen_append_ne_nil (m : List Char) : needOpenLit ++ m ≠ [] := by
  intro hx
  have h2 := (List.append_eq_nil).mp hx
  exact absurd h2.1 (by decide)

theorem tryNeed_some_shape {l ds : List Char} (h : tryNeed l = some ds) :
    ∃ post, l = needOpenLit ++ ds ++ needTailLit ++ post ∧ ds ≠ [] ∧
      (∀ c ∈ ds, isDigitChar c = true) := by
  simp only [tryNeed] at h
  split at h
  case isTrue h1 =>
    split at h
    case isTrue h2 =>
      injection h with hg
      obtain ⟨m, hm⟩ := (isPre_iff _ _).mp h1
      have hrest : l.drop needOpenLit.length = m := by
        rw [hm]
        exact List.drop_left _ _
      rw [hrest] at hg h2
      obtain ⟨h2a, h2b⟩ := h2
      obtain ⟨post, hpost⟩ := (isPre_iff _ _).mp h2b
      set tw := m.takeWhile isDigitChar with htw
      set dw := m.dropWhile isDigitChar with hdw
      have hsplit : m = tw ++ dw := by
        rw [htw, hdw]
        exact (List.takeWhile_append_dropWhile _ _).symm
      have hdrop : m.drop tw.length = dw := by
        rw [hsplit]
        exact List.drop_left _ _
      rw [hdrop] at hpost
      refine ⟨post, ?_, ?_, ?_⟩
      · rw [hm, hsplit, hg, hpost]
        simp [List.append_assoc]
      · rw [← hg]
        exact h2a
      · intro c hc
        rw [← hg] at hc
        exact List.mem_takeWhile_imp hc
    case isFalse h2 => cases h
  case isFalse h1 => cases h

theorem tryNeed_at_match (ds post : List Char) (hds : ds ≠ [])
    (hdig : ∀ c ∈ ds, isDigitChar c = true) :
    tryNeed (needOpenLit ++ (ds ++ (needTailLit ++ post))) = some ds := by
  have hdropA : (needOpenLit ++ (ds ++ (needTailLit ++ post))).drop needOpenLit.length
      = ds ++ (needTailLit ++ post) := List.drop_left _ _
  have hnt : needTailLit ++ post = ' ' ::
      (("approving review is required by reviewers with write access").data ++ post) := by
    have h3 : needTailLit = ' ' ::
        ("approving review is required by reviewers with write access").data := by
      decide
    rw [h3]
    rfl
  have htake : (ds ++ (needTailLit ++ post)).takeWhile isDigitChar = ds := by
    rw [hnt]
    exact takeWhile_append_stop hdig (by decide) _
  have hdropB : (ds ++ (needTailLit ++ post)).drop ds.length =
      needTailLit ++ post := List.drop_left _ _
  have hA : isPre needOpenLit (needOpenLit ++ (ds ++ (needTailLit ++ post))) = true :=
    isPre_append _ _
  have hB : isPre needTailLit (needTailLit ++ post) = true := isPre_append _ _
  simp only [tryNeed, hdropA, htake, hdropB, hA, hB, ne_eq, hds,
    not_false_eq_true, and_self, if_true]

theorem findNeed_cons_of_tryNeed {l ds : List Char}
    (hne : l ≠ []) (h : tryNeed l = some ds) : findNeed l = some ds := by
  cases l with
  | nil => exact absurd rfl hne
  | cons c rest =>
    simp only [findNeed]
    rw [h]

theorem findNeed_some_of_try : ∀ (l : List Char) (i : Nat) (ds : List Char),
    tryNeed (l.drop i) = some ds → ∃ ds2, findNeed l = some ds2 := by
  intro l
  induction l with
  | nil =>
    intro i ds h
    rw [List.drop_nil] at h
    have h0 : tryNeed ([] : List Char) = none := rfl
    rw [h0] at h
    cases h
  | cons c rest ih =>
    intro i ds h
    cases htn : tryNeed (c :: rest) with
    | some d2 =>
      refine ⟨d2, ?_⟩
      simp only [findNeed]
      rw [htn]
    | none =>
      cases i with
      | zero =>
        rw [List.drop_zero] at h
        rw [h] at htn
        cases htn
      | succ j =>
        rw [List.drop_succ_cons] at h
        obtain ⟨ds2, hds2⟩ := ih j ds h
        refine ⟨ds2, ?_⟩
        simp only [findNeed]
        rw [htn]
        exact hds2

theorem findNeed_occurrence {ds : List Char} : ∀ {l : List Char},
    findNeed l = some ds →
    ∃ pre post, l = pre ++ needOpenLit ++ ds ++ needTailLit ++ post ∧
      ds ≠ [] ∧ (∀ c ∈ ds, isDigitChar c = true) := by
  intro l
  induction l with
  | nil => intro h; simp [findNeed] at h
  | cons c rest ih =>
    intro h
    cases htn : tryNeed (c :: rest) with
    | some d2 =>
      have heq : findNeed (c :: rest) = some d2 := by
        simp only [findNeed]
        rw [htn]
      rw [heq] at h
      injection h with hd
      subst hd
      obtain ⟨post, hl, hne, hdig⟩ := tryNeed_some_shape htn
      refine ⟨[], post, ?_, hne, hdig⟩
      rw [hl]
      simp
    | none =>
      have heq : findNeed (c :: rest) = findNeed rest := by
        simp only [findNeed]
        rw [htn]
      rw [heq] at h
      obtain ⟨pre, post, hl, hne, hdig⟩ := ih h
      refine ⟨c :: pre, post, ?_, hne, hdig⟩
      rw [hl]
      simp [List.cons_append, List.append_assoc]

/-! ## C6: error classification -/

/-- C6: the classifier maps the nil error to `Succeeded!`; every message
containing the insufficient-approving-reviews pattern (the literal, a
nonempty digit run N, and the tail literal) is mapped to a message of the
form `Need N approving review` (with the leftmost captured digit run);
every other message is returned unchanged; and a message that begins with
the whole pattern yields exactly its own digit run. -/
theorem errMsg_spec :
    errMsg none = "Succeeded!" ∧
    (∀ msg : String, matchesNeedPattern msg →
      ∃ ds, ds ≠ [] ∧ (∀ c ∈ ds, isDigitChar c = true) ∧
        errMsg (some msg) = "Need " ++ (⟨ds⟩ : String) ++ " approving review") ∧
    (∀ msg : String, ¬ matchesNeedPattern msg → errMsg (some msg) = msg) ∧
    (∀ (msg : String) (ds post : List Char),
      msg.data = needOpenLit ++ (ds ++ (needTailLit ++ post)) → ds ≠ [] →
      (∀ c ∈ ds, isDigitChar c = true) →
      errMsg (some msg) = "Need " ++ (⟨ds⟩ : String) ++ " approving review") := by
  refine ⟨rfl, ?_, ?_, ?_⟩
  · rintro msg ⟨pre, ds, post, hdata, hne, hdig⟩
    have hassoc : msg.data = pre ++ (needOpenLit ++ (ds ++ (needTailLit ++ post))) := by
      rw [hdata]
      simp [List.append_assoc]
    have hdrop : msg.data.drop pre.length =
        needOpenLit ++ (ds ++ (needTailLit ++ post)) := by
      rw [hassoc]
      exact List.drop_left _ _
    have htry : tryNeed (msg.data.drop pre.length) = some ds := by
      rw [hdrop]
      exact tryNeed_at_match ds post hne hdig
    obtain ⟨ds2, hds2⟩ := findNeed_some_of_try msg.data pre.length ds htry
    obtain ⟨-, -, -, hne2, hdig2⟩ := findNeed_occurrence hds2
    exact ⟨ds2, hne2, hdig2, by simp [errMsg, hds2]⟩
  · intro msg hnm
    cases hf : findNeed msg.data with
    | none => simp [errMsg, hf]
    | some ds =>
      exfalso
      obtain ⟨pre, post, hl, hne, hdig⟩ := findNeed_occurrence hf
      exact hnm ⟨pre, ds, post, hl, hne, hdig⟩
  · intro msg ds post hdata hne hdig
    have htry : tryNeed msg.data = some ds := by
      rw [hdata]
      exact tryNeed_at_match ds post hne hdig
    have hnil : msg.data ≠ [] := by
      rw [hdata]
      exact needOpen_append_ne_nil _
    have hf : findNeed msg.data = some ds := findNeed_cons_of_tryNeed hnil htry
    simp [errMsg, hf]

/-- Witness for C6: the specification's example message yields
`Need 2 approving review`, via the whole-pattern branch. -/
theorem errMsg_spec_witness :
    errMsg (some exNeedMsg) =
      "Need " ++ (⟨['2']⟩ : String) ++ " approving review" :=
  errMsg_spec.2.2.2 exNeedMsg ['2'] [] (by decide) (by decide) (by decide)

/-! ## C3: extraction sentinel branches -/

/-- C3: when no release-note block is found, and likewise when the found
block's trimmed content is empty, `splitReleaseNote` returns the whole
body unchanged as the description and the sentinel `NONE` as the release
note (the block is not stripped in the empty-content case). -/
theorem splitReleaseNote_none_branch (body : String) :
    (findMatch body.data = none → splitReleaseNote body = (body, "NONE")) ∧
    (∀ g, findMatch body.data = some g → goTrimSpace g = [] →
      splitReleaseNote body = (body, "NONE")) := by
  constructor
  · intro h
    simp [splitReleaseNote, h]
  · intro g hg ht
    simp [splitReleaseNote, hg, ht]

/-- Witness for C3: a body with no block, and a body whose block content
is whitespace only (the block stays in the description). -/
theorem splitReleaseNote_none_branch_witness :
    splitReleaseNote cHello = (cHello, "NONE") ∧
    splitReleaseNote cBlank = (cBlank, "NONE") :=
  ⟨(splitReleaseNote_none_branch cHello).1 (by decide),
   (splitReleaseNote_none_branch cBlank).2 [' '] (by decide) (by decide)⟩

/-! ## C8: the release note is never empty -/

/-- C8: for every body, the releaseNote component of `splitReleaseNote` is
never the empty string: it is either the sentinel `NONE` or the nonempty
whitespace-trimmed content of the found block. -/
theorem splitReleaseNote_note_nonempty (body : String) :
    (splitReleaseNote body).2 ≠ "" ∧
    ((splitReleaseNote body).2 = "NONE" ∨
      ∃ g, findMatch body.data = some g ∧ goTrimSpace g ≠ [] ∧
        (splitReleaseNote body).2 = (⟨goTrimSpace g⟩ : String)) := by
  have hNONE : ("NONE" : String) ≠ "" := by decide
  cases hm : findMatch body.data with
  | none =>
    have h : splitReleaseNote body = (body, "NONE") := by
      simp [splitReleaseNote, hm]
    rw [h]
    exact ⟨hNONE, Or.inl rfl⟩
  | some g =>
    by_cases ht : goTrimSpace g = []
    · have h : splitReleaseNote body = (body, "NONE") := by
        simp [splitReleaseNote, hm, ht]
      rw [h]
      exact ⟨hNONE, Or.inl rfl⟩
    · have h : (splitReleaseNote body).2 = (⟨goTrimSpace g⟩ : String) := by
        simp [splitReleaseNote, hm, ht]
      rw [h]
      refine ⟨?_, Or.inr ⟨g, rfl, ht, rfl⟩⟩
      intro hc
      exact ht ((strMk_eq_empty_iff _).mp hc)

/-! ## C9: one comment attempt per terminal failure -/

/-- C9: every run of the orchestrator that fails with a bad trigger, an
unauthorized actor, or a fetch/merge failure attempts exactly one comment
post before the process exits, and does not exit successfully. -/
theorem mainRun_failure_single_comment (e : GoEnv) (mr sr : Except String Unit)
    (h : validateEnv e ≠ none ∨ ∃ s, mr = Except.error s) :
    ((mainRun e mr sr).2).length = 1 ∧
      (mainRun e mr sr).1 ≠ MainOutcome.success := by
  cases hv : validateEnv e with
  | some verr =>
    cases sr <;> simp [mainRun, hv]
  | none =>
    cases mr with
    | error merr => cases sr <;> simp [mainRun, hv]
    | ok u =>
      rcases h with h | ⟨s, hs⟩
      · exact absurd hv h
      · simp at hs

/-- Witness for C9: a bad-trigger run and a merge-failure run each attempt
exactly one comment. -/
theorem mainRun_failure_single_comment_witness :
    ((mainRun { Comment := "/x", Mergers := [], Actor := "a", PRNumber := 7 }
        (Except.ok ()) (Except.ok ())).2).length = 1 ∧
      (mainRun { Comment := "/x", Mergers := [], Actor := "a", PRNumber := 7 }
        (Except.ok ()) (Except.ok ())).1 ≠ MainOutcome.success :=
  mainRun_failure_single_comment _ _ _ (Or.inl (by decide))

end GAMerger
